import Mathlib

set_option maxRecDepth 4000

/-!
Shallow embedding of the FM-synthesizer core from `src/main.rs`.

The oscillator (`FMOscillator`) is modelled over `ℝ`, with `Real.sin`
standing for `f32::sin` (exact-real idealization of the `f32` arithmetic).
The ADSR envelope (`Envelope`) involves only field arithmetic and
comparisons, so it is modelled generically over a `LinearOrderedField`;
it is instantiated at `ℚ` (exact, computable) for the envelope claims and
at `ℝ` inside the composed voice `FMSynth`.
-/

/-- Mirror of the Rust struct `FMParams`:
carrier frequency (Hz), modulator frequency (Hz), modulation index,
output amplitude. -/
structure FMParams where
  carrier_freq : ℝ
  modulator_freq : ℝ
  modulation_index : ℝ
  amplitude : ℝ

/-- Mirror of `impl Default for FMParams`. -/
noncomputable def FMParams.default : FMParams :=
  { carrier_freq := 440
    modulator_freq := 220
    modulation_index := 2
    amplitude := 0.3 }

/-- Mirror of the Rust struct `FMOscillator`. -/
structure FMOscillator where
  sample_rate : ℝ
  carrier_phase : ℝ
  modulator_phase : ℝ
  params : FMParams

/-- Mirror of `FMOscillator::new`: both phases start at 0. -/
def FMOscillator.new (sample_rate : ℝ) (params : FMParams) : FMOscillator :=
  { sample_rate := sample_rate
    carrier_phase := 0
    modulator_phase := 0
    params := params }

/-- The phase wrap from `FMOscillator::next_sample`
(`if phase >= 1.0 { phase -= 1.0 }`): a single subtraction, not a modulo. -/
def wrapPhase {α : Type} [LinearOrderedField α] (p : α) : α :=
  if p ≥ 1 then p - 1 else p

/-- Mirror of `FMOscillator::next_sample`: compute the modulator value,
the modulated (instantaneous) carrier frequency, sample the carrier at the
pre-update phase, advance both phases, wrap them, and return the
amplitude-scaled carrier sample together with the updated state. -/
noncomputable def FMOscillator.next_sample (s : FMOscillator) : ℝ × FMOscillator :=
  let modulator := Real.sin (2 * Real.pi * s.modulator_phase)
  let modulated_freq := s.params.carrier_freq *
    (1 + s.params.modulation_index * modulator)
  let carrier := Real.sin (2 * Real.pi * s.carrier_phase)
  let carrier_phase := wrapPhase (s.carrier_phase + modulated_freq / s.sample_rate)
  let modulator_phase := wrapPhase (s.modulator_phase + s.params.modulator_freq / s.sample_rate)
  (carrier * s.params.amplitude,
    { s with carrier_phase := carrier_phase, modulator_phase := modulator_phase })

/-- Mirror of `FMOscillator::set_params`. -/
def FMOscillator.set_params (s : FMOscillator) (params : FMParams) : FMOscillator :=
  { s with params := params }

/-- State advance of the oscillator: the state component of `next_sample`. -/
noncomputable def oscStep (s : FMOscillator) : FMOscillator :=
  (s.next_sample).2

/-- The oscillator state after `n` consecutive calls to `next_sample`. -/
noncomputable def oscSteps (n : ℕ) (s : FMOscillator) : FMOscillator :=
  oscStep^[n] s

/-- Mirror of the Rust enum `EnvelopeState`. -/
inductive EnvelopeState
  | Idle
  | Attack
  | Decay
  | Sustain
  | Release
deriving DecidableEq

/-- Mirror of the Rust struct `Envelope`, generic over the number field. -/
structure Envelope (α : Type) where
  attack : α
  decay : α
  sustain : α
  release : α
  sample_rate : α
  state : EnvelopeState
  level : α
  time : α
deriving DecidableEq

/-- Mirror of `Envelope::new`: fixed ADSR settings
attack = 0.01 s, decay = 0.1 s, sustain = 0.7, release = 0.5 s,
starting Idle with level 0 and clock 0. -/
def Envelope.new {α : Type} [LinearOrderedField α] (sample_rate : α) : Envelope α :=
  { attack := 1 / 100
    decay := 1 / 10
    sustain := 7 / 10
    release := 1 / 2
    sample_rate := sample_rate
    state := .Idle
    level := 0
    time := 0 }

/-- Mirror of `Envelope::trigger`: unconditionally enter Attack, clock to 0. -/
def Envelope.trigger {α : Type} [LinearOrderedField α] (e : Envelope α) : Envelope α :=
  { e with state := .Attack, time := 0 }

/-- Mirror of `Envelope::release` (primed to avoid clashing with the
`release` field projection): enter Release and reset the clock unless Idle. -/
def Envelope.release' {α : Type} [LinearOrderedField α] (e : Envelope α) : Envelope α :=
  if e.state ≠ .Idle then { e with state := .Release, time := 0 } else e

/-- Mirror of `Envelope::process`: compute the stage level (possibly
transitioning when the clock has reached the stage duration), then advance
the clock by one sample period and return the level with the new state.
Note that, exactly as in the source, the Release→Idle transition does not
reset `time`. -/
def Envelope.process {α : Type} [LinearOrderedField α] (e : Envelope α) : α × Envelope α :=
  let dt := 1 / e.sample_rate
  let e1 :=
    match e.state with
    | .Idle => { e with level := 0 }
    | .Attack =>
        let lvl := e.time / e.attack
        if e.time ≥ e.attack then { e with level := lvl, state := .Decay, time := 0 }
        else { e with level := lvl }
    | .Decay =>
        let lvl := 1 - ((1 - e.sustain) * (e.time / e.decay))
        if e.time ≥ e.decay then { e with level := lvl, state := .Sustain, time := 0 }
        else { e with level := lvl }
    | .Sustain => { e with level := e.sustain }
    | .Release =>
        let lvl := e.sustain * (1 - e.time / e.release)
        if e.time ≥ e.release then { e with state := .Idle, level := 0 }
        else { e with level := lvl }
  let e2 := { e1 with time := e1.time + dt }
  (e2.level, e2)

/-- State advance of the envelope: the state component of `process`. -/
def envStep {α : Type} [LinearOrderedField α] (e : Envelope α) : Envelope α :=
  (e.process).2

/-- The envelope state after `n` consecutive calls to `process`. -/
def envSteps {α : Type} [LinearOrderedField α] (n : ℕ) (e : Envelope α) : Envelope α :=
  envStep^[n] e

/-- Mirror of the Rust struct `FMSynth`: one oscillator and one envelope,
sharing the sample rate. -/
structure FMSynth where
  oscillator : FMOscillator
  envelope : Envelope ℝ

/-- Mirror of `FMSynth::new`. -/
noncomputable def FMSynth.new (sample_rate : ℝ) (params : FMParams) : FMSynth :=
  { oscillator := FMOscillator.new sample_rate params
    envelope := Envelope.new sample_rate }

/-- Mirror of `FMSynth::next_sample`: product of oscillator output and
envelope level, each advanced once. -/
noncomputable def FMSynth.next_sample (s : FMSynth) : ℝ × FMSynth :=
  let osc := s.oscillator.next_sample
  let env := s.envelope.process
  (osc.1 * env.1, { oscillator := osc.2, envelope := env.2 })

/-- Mirror of `FMSynth::note_on`: forwards to `Envelope::trigger`. -/
noncomputable def FMSynth.note_on (s : FMSynth) : FMSynth :=
  { s with envelope := s.envelope.trigger }

/-- Mirror of `FMSynth::note_off`: forwards to `Envelope::release`. -/
noncomputable def FMSynth.note_off (s : FMSynth) : FMSynth :=
  { s with envelope := s.envelope.release' }

/-- Mirror of `FMSynth::set_params`: forwards to the oscillator only. -/
def FMSynth.set_params (s : FMSynth) (params : FMParams) : FMSynth :=
  { s with oscillator := s.oscillator.set_params params }

/-! ### Oscillator lemmas -/

/-- A single-subtraction wrap sends `[0, 2)` into `[0, 1)`. -/
lemma wrapPhase_mem {α : Type} [LinearOrderedField α] {p : α}
    (h0 : 0 ≤ p) (h2 : p < 2) : 0 ≤ wrapPhase p ∧ wrapPhase p < 1 := by
  unfold wrapPhase
  split <;> constructor <;> linarith

/-- Bounds on the carrier's per-sample phase increment when the modulation
index lies in `[0, 1]` and the peak instantaneous frequency is below the
sample rate. -/
lemma carrier_inc_bounds (cf mi sr x : ℝ) (hsr : 0 < sr) (hcf : 0 ≤ cf)
    (hmi0 : 0 ≤ mi) (hmi1 : mi ≤ 1) (hub : cf * (1 + mi) < sr) :
    0 ≤ cf * (1 + mi * Real.sin x) / sr ∧ cf * (1 + mi * Real.sin x) / sr < 1 := by
  have hs1 : Real.sin x ≤ 1 := Real.sin_le_one x
  have hs2 : -1 ≤ Real.sin x := Real.neg_one_le_sin x
  have hnn : 0 ≤ 1 + mi * Real.sin x := by nlinarith
  have hms : mi * Real.sin x ≤ mi := by nlinarith
  have hle : cf * (1 + mi * Real.sin x) ≤ cf * (1 + mi) :=
    mul_le_mul_of_nonneg_left (by linarith) hcf
  constructor
  · exact div_nonneg (mul_nonneg hcf hnn) hsr.le
  · rw [div_lt_one hsr]; linarith

/-- One `next_sample` call keeps both phases in `[0, 1)` when both
per-sample increments are guaranteed to lie in `[0, 1)`. -/
lemma oscStep_phase_mem (s : FMOscillator)
    (hsr : 0 < s.sample_rate) (hcf : 0 ≤ s.params.carrier_freq)
    (hmi0 : 0 ≤ s.params.modulation_index) (hmi1 : s.params.modulation_index ≤ 1)
    (hub : s.params.carrier_freq * (1 + s.params.modulation_index) < s.sample_rate)
    (hmf0 : 0 ≤ s.params.modulator_freq) (hmf1 : s.params.modulator_freq < s.sample_rate)
    (hc0 : 0 ≤ s.carrier_phase) (hc1 : s.carrier_phase < 1)
    (hm0 : 0 ≤ s.modulator_phase) (hm1 : s.modulator_phase < 1) :
    (0 ≤ (oscStep s).carrier_phase ∧ (oscStep s).carrier_phase < 1) ∧
    (0 ≤ (oscStep s).modulator_phase ∧ (oscStep s).modulator_phase < 1) := by
  have hci := carrier_inc_bounds s.params.carrier_freq s.params.modulation_index
    s.sample_rate (2 * Real.pi * s.modulator_phase) hsr hcf hmi0 hmi1 hub
  have hmi : 0 ≤ s.params.modulator_freq / s.sample_rate ∧
      s.params.modulator_freq / s.sample_rate < 1 :=
    ⟨div_nonneg hmf0 hsr.le, (div_lt_one hsr).mpr hmf1⟩
  constructor
  · exact wrapPhase_mem (by linarith [hci.1]) (by linarith [hci.2])
  · exact wrapPhase_mem (by linarith [hmi.1]) (by linarith [hmi.2])

/-- A `next_sample` call never changes the parameters or the sample rate. -/
lemma oscStep_const (s : FMOscillator) :
    (oscStep s).params = s.params ∧ (oscStep s).sample_rate = s.sample_rate :=
  ⟨rfl, rfl⟩

/-- Iterated `next_sample` calls never change the parameters or the sample
rate. -/
lemma oscSteps_const (n : ℕ) (s : FMOscillator) :
    (oscSteps n s).params = s.params ∧ (oscSteps n s).sample_rate = s.sample_rate := by
  induction n with
  | zero => exact ⟨rfl, rfl⟩
  | succ n ih =>
    have h : oscSteps (n + 1) s = oscStep (oscSteps n s) :=
      Function.iterate_succ_apply' _ _ _
    rw [h]
    exact ⟨(oscStep_const _).1.trans ih.1, (oscStep_const _).2.trans ih.2⟩

/-- With modulation index 0 the carrier phase after `n` calls is
`carrier_freq * n / sample_rate` minus the (natural) number of wraps that
have happened so far. -/
lemma oscSteps_pure_phase (sr : ℝ) (p : FMParams) (h : p.modulation_index = 0) (n : ℕ) :
    ∃ k : ℕ, (oscSteps n (FMOscillator.new sr p)).carrier_phase
      = p.carrier_freq * n / sr - k := by
  induction n with
  | zero => exact ⟨0, by simp [oscSteps, FMOscillator.new]⟩
  | succ n ih =>
    obtain ⟨k, hk⟩ := ih
    have hstep : oscSteps (n + 1) (FMOscillator.new sr p)
        = oscStep (oscSteps n (FMOscillator.new sr p)) :=
      Function.iterate_succ_apply' _ _ _
    set s := oscSteps n (FMOscillator.new sr p) with hs
    have hpar : s.params = p := (oscSteps_const n (FMOscillator.new sr p)).1
    have hsr : s.sample_rate = sr := (oscSteps_const n (FMOscillator.new sr p)).2
    have hcp : (oscStep s).carrier_phase
        = wrapPhase (s.carrier_phase + s.params.carrier_freq *
            (1 + s.params.modulation_index * Real.sin (2 * Real.pi * s.modulator_phase))
            / s.sample_rate) := rfl
    rw [hstep, hcp, hpar, hsr, h, hk]
    simp only [zero_mul, add_zero, mul_one]
    by_cases hw : p.carrier_freq * ↑n / sr - ↑k + p.carrier_freq / sr ≥ 1
    · refine ⟨k + 1, ?_⟩
      simp only [wrapPhase, if_pos hw]
      push_cast
      ring
    · refine ⟨k, ?_⟩
      simp only [wrapPhase, if_neg hw]
      push_cast
      ring

/-- Witness input for the oscillator claims: default-ish parameters with a
modulation index of 1/2, at 48 kHz. -/
noncomputable def oscW : FMOscillator :=
  FMOscillator.new 48000 ⟨440, 220, 1/2, 3/10⟩

/-- Counterexample input: a carrier at twice the sample rate. Its
per-sample phase increment is 2, so the single-subtraction wrap leaves the
phase at 1 after one call. -/
noncomputable def oscBad : FMOscillator :=
  FMOscillator.new 48000 ⟨96000, 0, 0, 1⟩

/-- Claim C1, counterexample: the claim quantifies over every parameter
setting, but with `carrier_freq = 96000` at `sample_rate = 48000` (and
modulation index 0, so the modulator is irrelevant) the very first
`next_sample` call leaves `carrier_phase = 1`, outside `[0, 1)`: the
single-subtraction wrap reduces the increment of 2 only once. -/
theorem claim_C1_cex : ¬ ((oscStep oscBad).carrier_phase < 1) := by
  have h : (oscStep oscBad).carrier_phase = 1 := by
    show wrapPhase ((0 : ℝ) + 96000 * (1 + 0 * Real.sin (2 * Real.pi * 0)) / 48000) = 1
    norm_num [wrapPhase]
  rw [h]
  exact lt_irrefl 1

/-- Claim C1, amended: provided every per-sample phase increment lies in
`[0, 1)` — guaranteed when `0 ≤ modulation_index ≤ 1`,
`carrier_freq * (1 + modulation_index) < sample_rate`, and
`0 ≤ modulator_freq < sample_rate` — both phases stay in `[0, 1)` after
every call, over arbitrarily many consecutive calls. -/
theorem claim_C1_thm (s : FMOscillator)
    (hsr : 0 < s.sample_rate) (hcf : 0 ≤ s.params.carrier_freq)
    (hmi0 : 0 ≤ s.params.modulation_index) (hmi1 : s.params.modulation_index ≤ 1)
    (hub : s.params.carrier_freq * (1 + s.params.modulation_index) < s.sample_rate)
    (hmf0 : 0 ≤ s.params.modulator_freq) (hmf1 : s.params.modulator_freq < s.sample_rate)
    (hc0 : 0 ≤ s.carrier_phase) (hc1 : s.carrier_phase < 1)
    (hm0 : 0 ≤ s.modulator_phase) (hm1 : s.modulator_phase < 1) (n : ℕ) :
    (0 ≤ (oscSteps n s).carrier_phase ∧ (oscSteps n s).carrier_phase < 1) ∧
    (0 ≤ (oscSteps n s).modulator_phase ∧ (oscSteps n s).modulator_phase < 1) := by
  induction n with
  | zero => exact ⟨⟨hc0, hc1⟩, hm0, hm1⟩
  | succ n ih =>
    have hstep : oscSteps (n + 1) s = oscStep (oscSteps n s) :=
      Function.iterate_succ_apply' _ _ _
    have hpar := (oscSteps_const n s).1
    have hsr' := (oscSteps_const n s).2
    rw [hstep]
    exact oscStep_phase_mem (oscSteps n s)
      (by rw [hsr']; exact hsr) (by rw [hpar]; exact hcf)
      (by rw [hpar]; exact hmi0) (by rw [hpar]; exact hmi1)
      (by rw [hpar, hsr']; exact hub)
      (by rw [hpar]; exact hmf0) (by rw [hpar, hsr']; exact hmf1)
      ih.1.1 ih.1.2 ih.2.1 ih.2.2

/-- Witness for the amended claim C1 at a concrete oscillator and `n = 5`. -/
theorem claim_C1_wit :
    0 < oscW.sample_rate ∧ 0 ≤ oscW.params.carrier_freq ∧
    0 ≤ oscW.params.modulation_index ∧ oscW.params.modulation_index ≤ 1 ∧
    oscW.params.carrier_freq * (1 + oscW.params.modulation_index) < oscW.sample_rate ∧
    0 ≤ oscW.params.modulator_freq ∧ oscW.params.modulator_freq < oscW.sample_rate ∧
    0 ≤ oscW.carrier_phase ∧ oscW.carrier_phase < 1 ∧
    0 ≤ oscW.modulator_phase ∧ oscW.modulator_phase < 1 ∧
    ((0 ≤ (oscSteps 5 oscW).carrier_phase ∧ (oscSteps 5 oscW).carrier_phase < 1) ∧
     (0 ≤ (oscSteps 5 oscW).modulator_phase ∧ (oscSteps 5 oscW).modulator_phase < 1)) := by
  have h1 : 0 < oscW.sample_rate := by norm_num [oscW, FMOscillator.new]
  have h2 : 0 ≤ oscW.params.carrier_freq := by norm_num [oscW, FMOscillator.new]
  have h3 : 0 ≤ oscW.params.modulation_index := by norm_num [oscW, FMOscillator.new]
  have h4 : oscW.params.modulation_index ≤ 1 := by norm_num [oscW, FMOscillator.new]
  have h5 : oscW.params.carrier_freq * (1 + oscW.params.modulation_index) < oscW.sample_rate := by
    norm_num [oscW, FMOscillator.new]
  have h6 : 0 ≤ oscW.params.modulator_freq := by norm_num [oscW, FMOscillator.new]
  have h7 : oscW.params.modulator_freq < oscW.sample_rate := by norm_num [oscW, FMOscillator.new]
  have h8 : 0 ≤ oscW.carrier_phase := by norm_num [oscW, FMOscillator.new]
  have h9 : oscW.carrier_phase < 1 := by norm_num [oscW, FMOscillator.new]
  have h10 : 0 ≤ oscW.modulator_phase := by norm_num [oscW, FMOscillator.new]
  have h11 : oscW.modulator_phase < 1 := by norm_num [oscW, FMOscillator.new]
  exact ⟨h1, h2, h3, h4, h5, h6, h7, h8, h9, h10, h11,
    claim_C1_thm oscW h1 h2 h3 h4 h5 h6 h7 h8 h9 h10 h11 5⟩

/-- Claim C2, confirmed: one `next_sample` call returns the carrier sampled
at the pre-update phase scaled by the amplitude, and advances the carrier
phase by `instantaneousFreq / sample_rate` and the modulator phase by
`modulator_freq / sample_rate` (each then wrapped by the single-subtraction
wrap of §4.1 step 5), where the instantaneous frequency is
`carrier_freq * (1 + modulation_index * sin (2π modulator_phase))`.
Parameters and sample rate are untouched. -/
theorem claim_C2_thm (s : FMOscillator) :
    (s.next_sample).1 = Real.sin (2 * Real.pi * s.carrier_phase) * s.params.amplitude ∧
    (s.next_sample).2.carrier_phase = wrapPhase (s.carrier_phase +
      s.params.carrier_freq *
        (1 + s.params.modulation_index * Real.sin (2 * Real.pi * s.modulator_phase))
        / s.sample_rate) ∧
    (s.next_sample).2.modulator_phase
      = wrapPhase (s.modulator_phase + s.params.modulator_freq / s.sample_rate) ∧
    (s.next_sample).2.params = s.params ∧
    (s.next_sample).2.sample_rate = s.sample_rate :=
  ⟨rfl, rfl, rfl, rfl, rfl⟩

/-- Claim C6, confirmed: with `amplitude ∈ [0, 1]` (only nonnegativity is
actually needed), every `next_sample` output lies in
`[-amplitude, amplitude]`, since the carrier is a sine value in `[-1, 1]`. -/
theorem claim_C6_thm (s : FMOscillator)
    (h0 : 0 ≤ s.params.amplitude) (h1 : s.params.amplitude ≤ 1) :
    -s.params.amplitude ≤ (s.next_sample).1 ∧ (s.next_sample).1 ≤ s.params.amplitude := by
  have hs1 : Real.sin (2 * Real.pi * s.carrier_phase) ≤ 1 := Real.sin_le_one _
  have hs2 : -1 ≤ Real.sin (2 * Real.pi * s.carrier_phase) := Real.neg_one_le_sin _
  have hout : (s.next_sample).1
      = Real.sin (2 * Real.pi * s.carrier_phase) * s.params.amplitude := rfl
  rw [hout]
  constructor <;> nlinarith

/-- Witness for claim C6 at a concrete oscillator with amplitude 1. -/
theorem claim_C6_wit :
    0 ≤ oscBad.params.amplitude ∧ oscBad.params.amplitude ≤ 1 ∧
    (-oscBad.params.amplitude ≤ (oscBad.next_sample).1 ∧
     (oscBad.next_sample).1 ≤ oscBad.params.amplitude) := by
  have h0 : 0 ≤ oscBad.params.amplitude := by norm_num [oscBad, FMOscillator.new]
  have h1 : oscBad.params.amplitude ≤ 1 := by norm_num [oscBad, FMOscillator.new]
  exact ⟨h0, h1, claim_C6_thm oscBad h0 h1⟩

/-- Claim C7, confirmed: with modulation index 0 the oscillator constructed
by `new` (phases 0) is a pure sine: the `n`-th returned value (0-indexed,
using the pre-increment phase) is
`amplitude * sin (2π * carrier_freq * n / sample_rate)`, the wrapped phase
being equivalent modulo one period. -/
theorem claim_C7_thm (sr : ℝ) (p : FMParams) (h : p.modulation_index = 0) (n : ℕ) :
    ((oscSteps n (FMOscillator.new sr p)).next_sample).1
      = p.amplitude * Real.sin (2 * Real.pi * (p.carrier_freq * n / sr)) := by
  obtain ⟨k, hk⟩ := oscSteps_pure_phase sr p h n
  have hpar := (oscSteps_const n (FMOscillator.new sr p)).1
  have hout : ((oscSteps n (FMOscillator.new sr p)).next_sample).1
      = Real.sin (2 * Real.pi * (oscSteps n (FMOscillator.new sr p)).carrier_phase)
        * (oscSteps n (FMOscillator.new sr p)).params.amplitude := rfl
  rw [hout, hpar, hk, mul_comm]
  congr 1
  have harg : 2 * Real.pi * (p.carrier_freq * ↑n / sr - ↑k)
      = 2 * Real.pi * (p.carrier_freq * ↑n / sr) - (k : ℤ) * (2 * Real.pi) := by
    push_cast
    ring
  rw [harg, Real.sin_sub_int_mul_two_pi]

/-- Witness parameters for claim C7: modulation index 0. -/
noncomputable def pPure : FMParams := ⟨440, 220, 0, 3/10⟩

/-- Witness for claim C7 at concrete parameters and `n = 3`. -/
theorem claim_C7_wit :
    pPure.modulation_index = 0 ∧
    ((oscSteps 3 (FMOscillator.new 48000 pPure)).next_sample).1
      = pPure.amplitude * Real.sin (2 * Real.pi * (pPure.carrier_freq * 3 / 48000)) := by
  have h : pPure.modulation_index = 0 := rfl
  refine ⟨h, ?_⟩
  have := claim_C7_thm 48000 pPure h 3
  simpa using this

/-- Claim C10, confirmed: `FMSynth::note_on` only triggers the envelope;
the oscillator state (both phases, the parameters, the sample rate) is
untouched, so the waveform phase is continuous across re-triggers. -/
theorem claim_C10_thm (s : FMSynth) :
    (s.note_on).oscillator = s.oscillator ∧
    (s.note_on).oscillator.carrier_phase = s.oscillator.carrier_phase ∧
    (s.note_on).oscillator.modulator_phase = s.oscillator.modulator_phase ∧
    (s.note_on).oscillator.params = s.oscillator.params ∧
    (s.note_on).oscillator.sample_rate = s.oscillator.sample_rate ∧
    (s.note_on).envelope = s.envelope.trigger :=
  ⟨rfl, rfl, rfl, rfl, rfl, rfl⟩

/-! ### Envelope lemmas -/

/-- Duration of the current stage of the envelope, for the three
time-driven stages (0 for Idle and Sustain, which have no time-driven
transition). -/
def stageDur {α : Type} [LinearOrderedField α] (e : Envelope α) : α :=
  match e.state with
  | .Attack => e.attack
  | .Decay => e.decay
  | .Release => e.release
  | _ => 0

lemma envSteps_zero {α : Type} [LinearOrderedField α] (e : Envelope α) :
    envSteps 0 e = e := rfl

lemma envSteps_one {α : Type} [LinearOrderedField α] (e : Envelope α) :
    envSteps 1 e = envStep e := rfl

lemma envSteps_succ {α : Type} [LinearOrderedField α] (n : ℕ) (e : Envelope α) :
    envSteps (n + 1) e = envSteps n (envStep e) :=
  Function.iterate_succ_apply _ _ _

lemma envSteps_succ' {α : Type} [LinearOrderedField α] (n : ℕ) (e : Envelope α) :
    envSteps (n + 1) e = envStep (envSteps n e) :=
  Function.iterate_succ_apply' _ _ _

lemma envSteps_add {α : Type} [LinearOrderedField α] (m n : ℕ) (e : Envelope α) :
    envSteps (m + n) e = envSteps m (envSteps n e) :=
  Function.iterate_add_apply _ _ _ _

/-- One `process` call in a time-driven stage whose clock has not yet
reached the stage duration: the stage is kept, the level is recomputed and
the clock advances by one sample period. -/
lemma envStep_stay {α : Type} [LinearOrderedField α] (e : Envelope α)
    (hst : e.state = .Attack ∨ e.state = .Decay ∨ e.state = .Release)
    (hlt : e.time < stageDur e) :
    ∃ l, envStep e = { e with level := l, time := e.time + 1 / e.sample_rate } := by
  obtain ⟨a, d, su, r, sr, st, lv, t⟩ := e
  rcases hst with h | h | h <;> subst h <;>
    simp only [stageDur] at hlt
  · refine ⟨t / a, ?_⟩
    simp only [envStep, Envelope.process]
    rw [if_neg (not_le.mpr hlt)]
  · refine ⟨1 - ((1 - su) * (t / d)), ?_⟩
    simp only [envStep, Envelope.process]
    rw [if_neg (not_le.mpr hlt)]
  · refine ⟨su * (1 - t / r), ?_⟩
    simp only [envStep, Envelope.process]
    rw [if_neg (not_le.mpr hlt)]

/-- One `process` call in Attack whose clock has reached the attack time:
transition to Decay; the clock was reset at the transition and then
advanced by the one sample period of this call. -/
lemma envStep_attack_done {α : Type} [LinearOrderedField α] (e : Envelope α)
    (hst : e.state = .Attack) (h : e.attack ≤ e.time) :
    envStep e =
      { e with state := .Decay, level := e.time / e.attack, time := 1 / e.sample_rate } := by
  obtain ⟨a, d, su, r, sr, st, lv, t⟩ := e
  subst hst
  simp only [envStep, Envelope.process]
  rw [if_pos h]
  congr 1
  exact zero_add _

/-- One `process` call in Decay whose clock has reached the decay time:
transition to Sustain; the clock was reset at the transition and then
advanced by the one sample period of this call. -/
lemma envStep_decay_done {α : Type} [LinearOrderedField α] (e : Envelope α)
    (hst : e.state = .Decay) (h : e.decay ≤ e.time) :
    envStep e =
      { e with state := .Sustain,
               level := 1 - ((1 - e.sustain) * (e.time / e.decay)),
               time := 1 / e.sample_rate } := by
  obtain ⟨a, d, su, r, sr, st, lv, t⟩ := e
  subst hst
  simp only [envStep, Envelope.process]
  rw [if_pos h]
  congr 1
  exact zero_add _

/-- One `process` call in Release whose clock has reached the release
time: transition to Idle with level forced to 0. Note that the clock is
NOT reset by this transition (faithful to the source); it just keeps
advancing. -/
lemma envStep_release_done {α : Type} [LinearOrderedField α] (e : Envelope α)
    (hst : e.state = .Release) (h : e.release ≤ e.time) :
    envStep e =
      { e with state := .Idle, level := 0, time := e.time + 1 / e.sample_rate } := by
  obtain ⟨a, d, su, r, sr, st, lv, t⟩ := e
  subst hst
  simp only [envStep, Envelope.process]
  rw [if_pos h]

/-- Running `process` for `n` calls inside one time-driven stage, while
the clock stays strictly below the stage duration: the stage is kept and
the clock advances by `n` sample periods. -/
lemma envSteps_stay {α : Type} [LinearOrderedField α] (n : ℕ) :
    ∀ e : Envelope α,
      (e.state = .Attack ∨ e.state = .Decay ∨ e.state = .Release) →
      (∀ j : ℕ, j < n → e.time + (j : α) / e.sample_rate < stageDur e) →
      ∃ l, envSteps n e = { e with level := l, time := e.time + (n : α) / e.sample_rate } := by
  induction n with
  | zero =>
    intro e hst h
    refine ⟨e.level, ?_⟩
    simp [envSteps_zero]
  | succ n ih =>
    intro e hst h
    have h0 : e.time < stageDur e := by
      have := h 0 (Nat.succ_pos n)
      simpa using this
    obtain ⟨l0, hstep⟩ := envStep_stay e hst h0
    have h1 : ∀ j : ℕ, j < n →
        ({ e with level := l0, time := e.time + 1 / e.sample_rate } : Envelope α).time
          + (j : α) / ({ e with level := l0, time := e.time + 1 / e.sample_rate } : Envelope α).sample_rate
          < stageDur ({ e with level := l0, time := e.time + 1 / e.sample_rate } : Envelope α) := by
      intro j hj
      show e.time + 1 / e.sample_rate + (j : α) / e.sample_rate < stageDur e
      have hx := h (j + 1) (by omega)
      push_cast at hx
      rw [add_div] at hx
      linarith
    obtain ⟨l, hrun⟩ := ih { e with level := l0, time := e.time + 1 / e.sample_rate } hst h1
    refine ⟨l, ?_⟩
    rw [envSteps_succ, hstep, hrun]
    congr 1
    push_cast
    rw [add_div]
    ring


/-! ### Envelope claims: release no-op, transition structure -/

/-- Claim C9, confirmed: `release` from Idle is a complete no-op; from any
other stage it moves to Release, resets the clock to 0, and leaves the
level untouched. -/
theorem claim_C9_thm {α : Type} [LinearOrderedField α] (e : Envelope α) :
    (e.state = .Idle → e.release' = e) ∧
    (e.state ≠ .Idle →
      (e.release').state = .Release ∧ (e.release').time = 0 ∧
      (e.release').level = e.level) := by
  constructor
  · intro h
    simp [Envelope.release', h]
  · intro h
    simp [Envelope.release', h]

/-- Witness for claim C9: a freshly constructed envelope is Idle, and
releasing it changes nothing. -/
theorem claim_C9_wit :
    (Envelope.new (48000 : ℚ)).state = EnvelopeState.Idle ∧
    (Envelope.new (48000 : ℚ)).release' = Envelope.new 48000 :=
  ⟨rfl, (claim_C9_thm (Envelope.new (48000 : ℚ))).1 rfl⟩

/-- Counterexample input for claim C8: an envelope in Release whose clock
has exactly reached the release duration. Reachability of such a state is
shown in `claim_C8_cex` by constructing it with
`new → trigger → release → 24000 × process`. -/
theorem claim_C8_cex :
    (envSteps 24000 (((Envelope.new (48000 : ℚ)).trigger).release')).state
      = EnvelopeState.Release ∧
    (envSteps 24001 (((Envelope.new (48000 : ℚ)).trigger).release')).state
      = EnvelopeState.Idle ∧
    (envSteps 24001 (((Envelope.new (48000 : ℚ)).trigger).release')).time
      = 1/2 + 1/48000 ∧
    (1/2 + 1/48000 : ℚ) ≠ 0 ∧ (1/2 + 1/48000 : ℚ) ≠ 1/48000 := by
  have h0 : ((Envelope.new (48000 : ℚ)).trigger).release'
      = (⟨1/100, 1/10, 7/10, 1/2, 48000, .Release, 0, 0⟩ : Envelope ℚ) := rfl
  obtain ⟨l, h1⟩ := envSteps_stay 24000
    (⟨1/100, 1/10, 7/10, 1/2, 48000, .Release, 0, 0⟩ : Envelope ℚ)
    (Or.inr (Or.inr rfl))
    (by
      intro j hj
      show (0 : ℚ) + (j : ℚ) / 48000 < 1/2
      have hj' : (j : ℚ) < 24000 := by exact_mod_cast hj
      rw [zero_add, div_lt_iff₀ (by norm_num : (0:ℚ) < 48000)]
      linarith)
  have h1' : envSteps 24000 (⟨1/100, 1/10, 7/10, 1/2, 48000, .Release, 0, 0⟩ : Envelope ℚ)
      = (⟨1/100, 1/10, 7/10, 1/2, 48000, .Release, l, 1/2⟩ : Envelope ℚ) := by
    refine h1.trans ?_
    simp only [Envelope.mk.injEq]
    norm_num
  have h2' : envSteps 24001 (⟨1/100, 1/10, 7/10, 1/2, 48000, .Release, 0, 0⟩ : Envelope ℚ)
      = (⟨1/100, 1/10, 7/10, 1/2, 48000, .Idle, 0, 1/2 + 1/48000⟩ : Envelope ℚ) := by
    rw [envSteps_succ', h1', envStep_release_done _ rfl (by norm_num)]
  rw [h0, h1', h2']
  refine ⟨rfl, rfl, rfl, by norm_num, by norm_num⟩

/-- Claim C8, amended: `trigger` and `release` reset the clock on their
transitions, and `process` transitions only along
Attack→Decay, Decay→Sustain, Release→Idle (otherwise keeping the stage);
on the Attack→Decay and Decay→Sustain transitions the clock is reset at
the transition (so it reads exactly one sample period after the call), but
the Release→Idle transition does NOT reset the clock — it keeps running.
The stage-graph part of the claim holds as stated; the clock-reset part
fails exactly for Release→Idle. -/
theorem claim_C8_thm {α : Type} [LinearOrderedField α] (e : Envelope α) :
    ((e.trigger).state = .Attack ∧ (e.trigger).time = 0) ∧
    (e.state = .Idle → e.release' = e) ∧
    (e.state ≠ .Idle → (e.release').state = .Release ∧ (e.release').time = 0) ∧
    (e.state = .Idle → (envStep e).state = .Idle) ∧
    (e.state = .Attack → (envStep e).state = .Attack ∨
      ((envStep e).state = .Decay ∧ (envStep e).time = 1 / e.sample_rate)) ∧
    (e.state = .Decay → (envStep e).state = .Decay ∨
      ((envStep e).state = .Sustain ∧ (envStep e).time = 1 / e.sample_rate)) ∧
    (e.state = .Sustain → (envStep e).state = .Sustain) ∧
    (e.state = .Release → (envStep e).state = .Release ∨
      ((envStep e).state = .Idle ∧ (envStep e).time = e.time + 1 / e.sample_rate)) := by
  obtain ⟨a, d, su, r, sr, st, lv, t⟩ := e
  refine ⟨⟨rfl, rfl⟩, ?_, ?_, ?_, ?_, ?_, ?_, ?_⟩
  · intro h
    have h' : st = EnvelopeState.Idle := h
    subst h'
    simp [Envelope.release']
  · intro h
    have h' : ¬ st = EnvelopeState.Idle := h
    simp [Envelope.release', h']
  · intro h
    have h' : st = EnvelopeState.Idle := h
    subst h'
    rfl
  · intro h
    have h' : st = EnvelopeState.Attack := h
    subst h'
    by_cases hc : t ≥ a
    · right
      simp only [envStep, Envelope.process]
      rw [if_pos hc]
      exact ⟨rfl, zero_add _⟩
    · left
      simp only [envStep, Envelope.process]
      rw [if_neg hc]
  · intro h
    have h' : st = EnvelopeState.Decay := h
    subst h'
    by_cases hc : t ≥ d
    · right
      simp only [envStep, Envelope.process]
      rw [if_pos hc]
      exact ⟨rfl, zero_add _⟩
    · left
      simp only [envStep, Envelope.process]
      rw [if_neg hc]
  · intro h
    have h' : st = EnvelopeState.Sustain := h
    subst h'
    rfl
  · intro h
    have h' : st = EnvelopeState.Release := h
    subst h'
    by_cases hc : t ≥ r
    · right
      simp only [envStep, Envelope.process]
      rw [if_pos hc]
      exact ⟨rfl, rfl⟩
    · left
      simp only [envStep, Envelope.process]
      rw [if_neg hc]

/-- Witness for the amended claim C8, applied to a concrete envelope in
Attack whose clock has reached the attack time: the call transitions to
Decay with the clock reset-and-advanced to one sample period. -/
theorem claim_C8_wit :
    ((⟨1/100, 1/10, 7/10, 1/2, 48000, .Attack, 0, 1/100⟩ : Envelope ℚ)).state
      = EnvelopeState.Attack ∧
    ((envStep (⟨1/100, 1/10, 7/10, 1/2, 48000, .Attack, 0, 1/100⟩ : Envelope ℚ)).state
        = EnvelopeState.Attack ∨
      ((envStep (⟨1/100, 1/10, 7/10, 1/2, 48000, .Attack, 0, 1/100⟩ : Envelope ℚ)).state
          = EnvelopeState.Decay ∧
       (envStep (⟨1/100, 1/10, 7/10, 1/2, 48000, .Attack, 0, 1/100⟩ : Envelope ℚ)).time
          = 1 / (⟨1/100, 1/10, 7/10, 1/2, 48000, .Attack, 0, 1/100⟩ : Envelope ℚ).sample_rate)) :=
  ⟨rfl, (claim_C8_thm (⟨1/100, 1/10, 7/10, 1/2, 48000, .Attack, 0, 1/100⟩ : Envelope ℚ)).2.2.2.2.1 rfl⟩

/-! ### Envelope claims: re-trigger behavior -/

/-- Concrete envelope sitting in Sustain with level equal to the sustain
setting (0.7), as in the claim about re-triggering. -/
def envSus : Envelope ℚ := ⟨1/100, 1/10, 7/10, 1/2, 48000, .Sustain, 7/10, 1/4⟩

/-- Claim C3, counterexample: triggering from Sustain and then calling
`process` once returns 0 (the attack formula `t / attack` evaluated at
`t = 0`, since the level is computed before the clock advances), not
`1 / (attack * sample_rate)` as the claim states. -/
theorem claim_C3_cex :
    ((envSus.trigger).process).1 = 0 ∧
    (0 : ℚ) ≠ 1 / (envSus.attack * envSus.sample_rate) := by
  constructor
  · norm_num [envSus, Envelope.trigger, Envelope.process]
  · norm_num [envSus]

/-- Claim C3, amended: triggering from Sustain restarts the attack ramp
from elapsed time 0 with the formula `t / attack`; the level returned by
the NEXT `process` call is 0 (the ramp evaluated at `t = 0`), and the one
returned by the SECOND `process` call is `1 / (attack * sample_rate)` —
in either case a discontinuity from the sustained 0.7, not a continuation
of it. -/
theorem claim_C3_thm {α : Type} [LinearOrderedField α] (e : Envelope α)
    (hst : e.state = .Sustain) (hlv : e.level = e.sustain) (ha : 0 < e.attack) :
    (e.trigger).state = .Attack ∧ (e.trigger).time = 0 ∧
    ((e.trigger).process).1 = 0 ∧
    ((((e.trigger).process).2).process).1 = 1 / (e.attack * e.sample_rate) := by
  obtain ⟨a, d, su, r, sr, st, lv, t⟩ := e
  have ha' : (0 : α) < a := ha
  have hmid : (((⟨a, d, su, r, sr, st, lv, t⟩ : Envelope α).trigger).process).2
      = (⟨a, d, su, r, sr, .Attack, 0 / a, 0 + 1 / sr⟩ : Envelope α) := by
    show ((⟨a, d, su, r, sr, .Attack, lv, 0⟩ : Envelope α).process).2
      = (⟨a, d, su, r, sr, .Attack, 0 / a, 0 + 1 / sr⟩ : Envelope α)
    simp only [Envelope.process]
    rw [if_neg (not_le.mpr ha')]
  refine ⟨rfl, rfl, ?_, ?_⟩
  · show ((⟨a, d, su, r, sr, .Attack, lv, 0⟩ : Envelope α).process).1 = 0
    simp only [Envelope.process]
    rw [if_neg (not_le.mpr ha')]
    exact zero_div a
  · rw [hmid]
    have hgoal : ((0 : α) + 1 / sr) / a = 1 / (a * sr) := by
      rw [zero_add, div_div, mul_comm]
    by_cases hc : ((0 : α) + 1 / sr) ≥ a
    · simp only [Envelope.process]
      rw [if_pos hc]
      exact hgoal
    · simp only [Envelope.process]
      rw [if_neg hc]
      exact hgoal

/-- Witness for the amended claim C3 at the concrete Sustain envelope. -/
theorem claim_C3_wit :
    envSus.state = EnvelopeState.Sustain ∧ envSus.level = envSus.sustain ∧
    0 < envSus.attack ∧
    ((envSus.trigger).state = EnvelopeState.Attack ∧ (envSus.trigger).time = 0 ∧
     ((envSus.trigger).process).1 = 0 ∧
     ((((envSus.trigger).process).2).process).1
        = 1 / (envSus.attack * envSus.sample_rate)) := by
  have h1 : envSus.state = EnvelopeState.Sustain := rfl
  have h2 : envSus.level = envSus.sustain := rfl
  have h3 : (0 : ℚ) < envSus.attack := by norm_num [envSus]
  exact ⟨h1, h2, h3, claim_C3_thm envSus h1 h2 h3⟩

/-! ### Envelope claims: full-cycle timing at 48 kHz -/

/-- Triggering a fresh 48 kHz envelope, written out as a record. -/
lemma env48_trigger : (Envelope.new (48000 : ℚ)).trigger
    = (⟨1/100, 1/10, 7/10, 1/2, 48000, .Attack, 0, 0⟩ : Envelope ℚ) := rfl

/-- After exactly 480 `process` calls the 48 kHz envelope is STILL in
Attack (its clock reads exactly the attack time, but the transition test
happens at the start of the next call). -/
lemma env48_after480 : ∃ l, envSteps 480 ((Envelope.new (48000 : ℚ)).trigger)
    = (⟨1/100, 1/10, 7/10, 1/2, 48000, .Attack, l, 1/100⟩ : Envelope ℚ) := by
  obtain ⟨l, h⟩ := envSteps_stay 480
    (⟨1/100, 1/10, 7/10, 1/2, 48000, .Attack, 0, 0⟩ : Envelope ℚ)
    (Or.inl rfl)
    (by
      intro j hj
      show (0 : ℚ) + (j : ℚ) / 48000 < 1/100
      have hj' : (j : ℚ) < 480 := by exact_mod_cast hj
      rw [zero_add, div_lt_iff₀ (by norm_num : (0:ℚ) < 48000)]
      linarith)
  refine ⟨l, ?_⟩
  rw [env48_trigger]
  refine h.trans ?_
  simp only [Envelope.mk.injEq]
  norm_num

/-- Call number 481 performs the Attack→Decay transition. -/
lemma env48_after481 : envSteps 481 ((Envelope.new (48000 : ℚ)).trigger)
    = (⟨1/100, 1/10, 7/10, 1/2, 48000, .Decay, 1, 1/48000⟩ : Envelope ℚ) := by
  obtain ⟨l, h⟩ := env48_after480
  have hsucc : envSteps 481 ((Envelope.new (48000 : ℚ)).trigger)
      = envStep (envSteps 480 ((Envelope.new (48000 : ℚ)).trigger)) :=
    envSteps_succ' 480 _
  rw [hsucc, h]
  refine (envStep_attack_done _ rfl (by norm_num)).trans ?_
  simp only [Envelope.mk.injEq]
  norm_num

/-- Call number 5281 (= 481 + 4800) performs the Decay→Sustain transition,
with level exactly the sustain setting 0.7. -/
lemma env48_after5281 : envSteps 5281 ((Envelope.new (48000 : ℚ)).trigger)
    = (⟨1/100, 1/10, 7/10, 1/2, 48000, .Sustain, 7/10, 1/48000⟩ : Envelope ℚ) := by
  have hsplit : envSteps 5281 ((Envelope.new (48000 : ℚ)).trigger)
      = envStep (envSteps 4799 (envSteps 481 ((Envelope.new (48000 : ℚ)).trigger))) := by
    have hn : (5281 : ℕ) = 1 + 4799 + 481 := by norm_num
    rw [hn, envSteps_add, envSteps_add, envSteps_one]
  rw [hsplit, env48_after481]
  obtain ⟨l, h⟩ := envSteps_stay 4799
    (⟨1/100, 1/10, 7/10, 1/2, 48000, .Decay, 1, 1/48000⟩ : Envelope ℚ)
    (Or.inr (Or.inl rfl))
    (by
      intro j hj
      show (1/48000 : ℚ) + (j : ℚ) / 48000 < 1/10
      have hj' : (j : ℚ) < 4799 := by exact_mod_cast hj
      rw [div_add_div_same, div_lt_iff₀ (by norm_num : (0:ℚ) < 48000)]
      linarith)
  have h' : envSteps 4799 (⟨1/100, 1/10, 7/10, 1/2, 48000, .Decay, 1, 1/48000⟩ : Envelope ℚ)
      = (⟨1/100, 1/10, 7/10, 1/2, 48000, .Decay, l, 1/10⟩ : Envelope ℚ) := by
    refine h.trans ?_
    simp only [Envelope.mk.injEq]
    norm_num
  rw [h']
  refine (envStep_decay_done _ rfl (by norm_num)).trans ?_
  simp only [Envelope.mk.injEq]
  norm_num

/-- After releasing from the Sustain point, call number 24001 performs the
Release→Idle transition with level forced to 0. -/
lemma env48_final :
    envSteps 24001 ((envSteps 5281 ((Envelope.new (48000 : ℚ)).trigger)).release')
      = (⟨1/100, 1/10, 7/10, 1/2, 48000, .Idle, 0, 1/2 + 1/48000⟩ : Envelope ℚ) := by
  have h0 : (envSteps 5281 ((Envelope.new (48000 : ℚ)).trigger)).release'
      = (⟨1/100, 1/10, 7/10, 1/2, 48000, .Release, 7/10, 0⟩ : Envelope ℚ) := by
    rw [env48_after5281]
    rfl
  rw [h0]
  obtain ⟨l, h⟩ := envSteps_stay 24000
    (⟨1/100, 1/10, 7/10, 1/2, 48000, .Release, 7/10, 0⟩ : Envelope ℚ)
    (Or.inr (Or.inr rfl))
    (by
      intro j hj
      show (0 : ℚ) + (j : ℚ) / 48000 < 1/2
      have hj' : (j : ℚ) < 24000 := by exact_mod_cast hj
      rw [zero_add, div_lt_iff₀ (by norm_num : (0:ℚ) < 48000)]
      linarith)
  have h' : envSteps 24000 (⟨1/100, 1/10, 7/10, 1/2, 48000, .Release, 7/10, 0⟩ : Envelope ℚ)
      = (⟨1/100, 1/10, 7/10, 1/2, 48000, .Release, l, 1/2⟩ : Envelope ℚ) := by
    refine h.trans ?_
    simp only [Envelope.mk.injEq]
    norm_num
  rw [envSteps_succ', h']
  refine (envStep_release_done _ rfl (by norm_num)).trans ?_
  simp only [Envelope.mk.injEq]

/-- Claim C4, counterexample: after `trigger()` and exactly 480 `process`
calls at 48 kHz the stage is still Attack, not Decay as claimed — the
transition test runs before the clock reaches the attack time within a
call, so it fires one call later. -/
theorem claim_C4_cex :
    (envSteps 480 ((Envelope.new (48000 : ℚ)).trigger)).state = EnvelopeState.Attack ∧
    EnvelopeState.Attack ≠ EnvelopeState.Decay := by
  obtain ⟨l, h⟩ := env48_after480
  exact ⟨by rw [h], by decide⟩

/-- Claim C4, amended: each milestone lands exactly one call later than
claimed. With the fixed settings at 48 kHz: after `trigger()` and 481
calls the stage is Decay; after 481 + 4800 = 5281 calls the stage is
Sustain with level exactly 0.7; after `release()` and 24001 further calls
the stage is Idle with level exactly 0. -/
theorem claim_C4_thm :
    (envSteps 481 ((Envelope.new (48000 : ℚ)).trigger)).state = EnvelopeState.Decay ∧
    (envSteps 5281 ((Envelope.new (48000 : ℚ)).trigger)).state = EnvelopeState.Sustain ∧
    (envSteps 5281 ((Envelope.new (48000 : ℚ)).trigger)).level = 7/10 ∧
    (envSteps 24001 ((envSteps 5281 ((Envelope.new (48000 : ℚ)).trigger)).release')).state
      = EnvelopeState.Idle ∧
    (envSteps 24001 ((envSteps 5281 ((Envelope.new (48000 : ℚ)).trigger)).release')).level
      = 0 := by
  rw [env48_final, env48_after481, env48_after5281]
  exact ⟨rfl, rfl, rfl, rfl, rfl⟩

/-! ### Envelope claims: output bounds for reachable states -/

/-- Envelope states reachable from `Envelope::new` at a given sample rate
through the three operations of the API. -/
inductive EnvReachable (sr : ℚ) : Envelope ℚ → Prop
  | base : EnvReachable sr (Envelope.new sr)
  | trig {e : Envelope ℚ} : EnvReachable sr e → EnvReachable sr e.trigger
  | rel {e : Envelope ℚ} : EnvReachable sr e → EnvReachable sr e.release'
  | proc {e : Envelope ℚ} : EnvReachable sr e → EnvReachable sr (envStep e)

/-- Invariant carried by every reachable envelope state when the sample
rate is `100 * m` samples per second (so that the attack and decay
durations are whole numbers of samples, `m` and `10 * m`): the fixed ADSR
settings, a clock that is a whole number of sample periods, and a clock
bounded by the stage duration in Attack and Decay. -/
def EnvInv (m : ℕ) (e : Envelope ℚ) : Prop :=
  e.attack = 1/100 ∧ e.decay = 1/10 ∧ e.sustain = 7/10 ∧ e.release = 1/2 ∧
  e.sample_rate = 100 * m ∧
  (∃ k : ℕ, e.time = k / (100 * m)) ∧
  (e.state = .Attack → e.time ≤ 1/100) ∧
  (e.state = .Decay → e.time ≤ 1/10)

lemma envInv_new (m : ℕ) : EnvInv m (Envelope.new ((100 : ℚ) * m)) := by
  refine ⟨rfl, rfl, rfl, rfl, rfl, ⟨0, by simp [Envelope.new]⟩, ?_, ?_⟩ <;>
    · intro hx
      simp [Envelope.new] at hx

lemma envInv_trigger (m : ℕ) (e : Envelope ℚ) (h : EnvInv m e) :
    EnvInv m e.trigger := by
  obtain ⟨ha, hd, hsu, hr, hsr, ⟨k, hk⟩, _, _⟩ := h
  refine ⟨ha, hd, hsu, hr, hsr, ⟨0, by simp [Envelope.trigger]⟩, ?_, ?_⟩
  · intro _
    show (0 : ℚ) ≤ 1/100
    norm_num
  · intro hx
    simp [Envelope.trigger] at hx

lemma envInv_release (m : ℕ) (e : Envelope ℚ) (h : EnvInv m e) :
    EnvInv m e.release' := by
  by_cases hst : e.state = .Idle
  · have hne : ¬ (e.state ≠ EnvelopeState.Idle) := by simp [hst]
    rw [Envelope.release', if_neg hne]
    exact h
  · rw [Envelope.release', if_pos hst]
    obtain ⟨ha, hd, hsu, hr, hsr, ⟨k, hk⟩, _, _⟩ := h
    refine ⟨ha, hd, hsu, hr, hsr, ⟨0, by simp⟩, ?_, ?_⟩ <;>
      · intro hx
        simp at hx

lemma envInv_step (m : ℕ) (hm : 0 < m) (e : Envelope ℚ) (h : EnvInv m e) :
    EnvInv m (envStep e) := by
  obtain ⟨ha, hd, hsu, hr, hsr, ⟨k, hk⟩, h7, h8⟩ := h
  obtain ⟨a, d, su, r, sr, st, lv, t⟩ := e
  have ha' : a = 1/100 := ha
  have hd' : d = 1/10 := hd
  have hsu' : su = 7/10 := hsu
  have hr' : r = 1/2 := hr
  have hsr' : sr = 100 * m := hsr
  have hk' : t = (k : ℚ) / (100 * m) := hk
  subst ha' hd' hsu' hr' hsr' hk'
  have hm0 : (0 : ℚ) < (m : ℚ) := by exact_mod_cast hm
  have h100m : (0 : ℚ) < 100 * m := by positivity
  have hm1 : (1 : ℚ) ≤ (m : ℚ) := by exact_mod_cast hm
  have hdt : ((k : ℚ)) / (100 * m) + 1 / (100 * m) = ((k + 1 : ℕ) : ℚ) / (100 * m) := by
    rw [div_add_div_same]
    push_cast
    ring
  cases st with
  | Idle =>
    refine ⟨rfl, rfl, rfl, rfl, rfl, ⟨k + 1, hdt⟩, ?_, ?_⟩ <;>
      · intro hx
        simp [envStep, Envelope.process] at hx
  | Attack =>
    have hbound : (k : ℚ) / (100 * m) ≤ 1/100 := h7 rfl
    by_cases hc : (k : ℚ) / (100 * m) ≥ 1/100
    · rw [envStep_attack_done _ rfl hc]
      refine ⟨rfl, rfl, rfl, rfl, rfl, ⟨1, by norm_num⟩, ?_, ?_⟩
      · intro hx
        simp at hx
      · intro _
        show 1 / ((100 : ℚ) * m) ≤ 1/10
        have h10 : (10 : ℚ) ≤ 100 * m := by nlinarith
        exact one_div_le_one_div_of_le (by norm_num) h10
    · obtain ⟨l, hl⟩ := envStep_stay
        (⟨1/100, 1/10, 7/10, 1/2, 100 * m, .Attack, lv, (k : ℚ) / (100 * m)⟩ : Envelope ℚ)
        (Or.inl rfl)
        (by
          show (k : ℚ) / (100 * (m : ℚ)) < 1/100
          exact not_le.mp hc)
      rw [hl]
      have hkm : k < m := by
        have hlt : (k : ℚ) / (100 * m) < 1/100 := not_le.mp hc
        rw [div_lt_iff₀ h100m] at hlt
        have : (k : ℚ) < m := by nlinarith
        exact_mod_cast this
      refine ⟨rfl, rfl, rfl, rfl, rfl, ⟨k + 1, hdt⟩, ?_, ?_⟩
      · intro _
        show (k : ℚ) / (100 * m) + 1 / (100 * m) ≤ 1/100
        rw [hdt]
        have hk1 : ((k + 1 : ℕ) : ℚ) ≤ (m : ℚ) := by exact_mod_cast hkm
        rw [div_le_iff₀ h100m]
        nlinarith
      · intro hx
        simp at hx
  | Decay =>
    have hbound : (k : ℚ) / (100 * m) ≤ 1/10 := h8 rfl
    by_cases hc : (k : ℚ) / (100 * m) ≥ 1/10
    · rw [envStep_decay_done _ rfl hc]
      refine ⟨rfl, rfl, rfl, rfl, rfl, ⟨1, by norm_num⟩, ?_, ?_⟩ <;>
        · intro hx
          simp at hx
    · obtain ⟨l, hl⟩ := envStep_stay
        (⟨1/100, 1/10, 7/10, 1/2, 100 * m, .Decay, lv, (k : ℚ) / (100 * m)⟩ : Envelope ℚ)
        (Or.inr (Or.inl rfl))
        (by
          show (k : ℚ) / (100 * (m : ℚ)) < 1/10
          exact not_le.mp hc)
      rw [hl]
      have hkm : k < 10 * m := by
        have hlt : (k : ℚ) / (100 * m) < 1/10 := not_le.mp hc
        rw [div_lt_iff₀ h100m] at hlt
        have : (k : ℚ) < 10 * m := by nlinarith
        exact_mod_cast this
      refine ⟨rfl, rfl, rfl, rfl, rfl, ⟨k + 1, hdt⟩, ?_, ?_⟩
      · intro hx
        simp at hx
      · intro _
        show (k : ℚ) / (100 * m) + 1 / (100 * m) ≤ 1/10
        rw [hdt]
        have hk1 : ((k + 1 : ℕ) : ℚ) ≤ ((10 * m : ℕ) : ℚ) := by exact_mod_cast hkm
        push_cast at hk1
        rw [div_le_iff₀ h100m]
        push_cast
        nlinarith
  | Sustain =>
    refine ⟨rfl, rfl, rfl, rfl, rfl, ⟨k + 1, hdt⟩, ?_, ?_⟩ <;>
      · intro hx
        simp [envStep, Envelope.process] at hx
  | Release =>
    by_cases hc : (k : ℚ) / (100 * m) ≥ 1/2
    · rw [envStep_release_done _ rfl hc]
      refine ⟨rfl, rfl, rfl, rfl, rfl, ⟨k + 1, hdt⟩, ?_, ?_⟩ <;>
        · intro hx
          simp at hx
    · obtain ⟨l, hl⟩ := envStep_stay
        (⟨1/100, 1/10, 7/10, 1/2, 100 * m, .Release, lv, (k : ℚ) / (100 * m)⟩ : Envelope ℚ)
        (Or.inr (Or.inr rfl))
        (by
          show (k : ℚ) / (100 * (m : ℚ)) < 1/2
          exact not_le.mp hc)
      rw [hl]
      refine ⟨rfl, rfl, rfl, rfl, rfl, ⟨k + 1, hdt⟩, ?_, ?_⟩ <;>
        · intro hx
          simp at hx

lemma envReachable_inv (m : ℕ) (hm : 0 < m) (e : Envelope ℚ)
    (h : EnvReachable ((100 : ℚ) * m) e) : EnvInv m e := by
  induction h with
  | base => exact envInv_new m
  | trig _ ih => exact envInv_trigger m _ ih
  | rel _ ih => exact envInv_release m _ ih
  | proc _ ih => exact envInv_step m hm _ ih

/-- The value returned by one `process` call lies in `[0, 1]` whenever the
state satisfies the reachability invariant. -/
lemma envInv_output (m : ℕ) (hm : 0 < m) (e : Envelope ℚ) (h : EnvInv m e) :
    0 ≤ (e.process).1 ∧ (e.process).1 ≤ 1 := by
  obtain ⟨ha, hd, hsu, hr, hsr, ⟨k, hk⟩, h7, h8⟩ := h
  obtain ⟨a, d, su, r, sr, st, lv, t⟩ := e
  have ha' : a = 1/100 := ha
  have hd' : d = 1/10 := hd
  have hsu' : su = 7/10 := hsu
  have hr' : r = 1/2 := hr
  have hsr' : sr = 100 * m := hsr
  have hk' : t = (k : ℚ) / (100 * m) := hk
  subst ha' hd' hsu' hr' hsr' hk'
  have hm0 : (0 : ℚ) < (m : ℚ) := by exact_mod_cast hm
  have h100m : (0 : ℚ) < 100 * (m : ℚ) := by positivity
  cases st with
  | Idle =>
    have hval : ((⟨1/100, 1/10, 7/10, 1/2, 100 * (m : ℚ), .Idle, lv,
        (k : ℚ) / (100 * m)⟩ : Envelope ℚ).process).1 = 0 := rfl
    rw [hval]
    norm_num
  | Attack =>
    have hb : (k : ℚ) / (100 * m) ≤ 1/100 := h7 rfl
    have hval : ((⟨1/100, 1/10, 7/10, 1/2, 100 * (m : ℚ), .Attack, lv,
        (k : ℚ) / (100 * m)⟩ : Envelope ℚ).process).1
        = ((k : ℚ) / (100 * m)) / (1/100) := by
      simp only [Envelope.process]
      by_cases hc : (k : ℚ) / (100 * m) ≥ 1/100
      · rw [if_pos hc]
      · rw [if_neg hc]
    rw [hval]
    constructor
    · positivity
    · rw [div_le_one (by norm_num : (0:ℚ) < 1/100)]
      exact hb
  | Decay =>
    have hb : (k : ℚ) / (100 * m) ≤ 1/10 := h8 rfl
    have hval : ((⟨1/100, 1/10, 7/10, 1/2, 100 * (m : ℚ), .Decay, lv,
        (k : ℚ) / (100 * m)⟩ : Envelope ℚ).process).1
        = 1 - ((1 - 7/10) * (((k : ℚ) / (100 * m)) / (1/10))) := by
      simp only [Envelope.process]
      by_cases hc : (k : ℚ) / (100 * m) ≥ 1/10
      · rw [if_pos hc]
      · rw [if_neg hc]
    rw [hval]
    have h01 : ((k : ℚ) / (100 * m)) / (1/10) ≤ 1 := by
      rw [div_le_one (by norm_num : (0:ℚ) < 1/10)]
      exact hb
    have h00 : 0 ≤ ((k : ℚ) / (100 * m)) / (1/10) := by positivity
    constructor <;> nlinarith
  | Sustain =>
    have hval : ((⟨1/100, 1/10, 7/10, 1/2, 100 * (m : ℚ), .Sustain, lv,
        (k : ℚ) / (100 * m)⟩ : Envelope ℚ).process).1 = 7/10 := rfl
    rw [hval]
    norm_num
  | Release =>
    by_cases hc : (k : ℚ) / (100 * m) ≥ 1/2
    · have hval : ((⟨1/100, 1/10, 7/10, 1/2, 100 * (m : ℚ), .Release, lv,
          (k : ℚ) / (100 * m)⟩ : Envelope ℚ).process).1 = 0 := by
        simp only [Envelope.process]
        rw [if_pos hc]
      rw [hval]
      norm_num
    · have hval : ((⟨1/100, 1/10, 7/10, 1/2, 100 * (m : ℚ), .Release, lv,
          (k : ℚ) / (100 * m)⟩ : Envelope ℚ).process).1
          = 7/10 * (1 - ((k : ℚ) / (100 * m)) / (1/2)) := by
        simp only [Envelope.process]
        rw [if_neg hc]
      rw [hval]
      have hlt : ((k : ℚ) / (100 * m)) / (1/2) < 1 := by
        rw [div_lt_one (by norm_num : (0:ℚ) < 1/2)]
        exact not_le.mp hc
      have h00 : 0 ≤ ((k : ℚ) / (100 * m)) / (1/2) := by positivity
      constructor <;> nlinarith

/-- Claim C5, counterexample: at sample rate 50 (where the attack time
0.01 s is less than one sample period), the state reached by
`new → trigger → process` returns 2 from its next `process` call —
outside `[0, 1]`. The attack ramp formula `t / attack` is not clamped. -/
theorem claim_C5_cex :
    ¬ (((envStep ((Envelope.new (50 : ℚ)).trigger)).process).1 ≤ 1) := by
  have hval : ((envStep ((Envelope.new (50 : ℚ)).trigger)).process).1 = 2 := by
    norm_num [envStep, Envelope.process, Envelope.trigger, Envelope.new]
  rw [hval]
  norm_num

/-- Claim C5, amended: when the sample rate is a positive multiple of 100
(so the fixed attack and decay durations are whole numbers of samples — in
particular at the reference rate 48000), every value returned by
`process` from a state reachable through trigger/release/process lies in
`[0, 1]`. -/
theorem claim_C5_thm (m : ℕ) (hm : 0 < m) (e : Envelope ℚ)
    (h : EnvReachable ((100 : ℚ) * m) e) :
    0 ≤ (e.process).1 ∧ (e.process).1 ≤ 1 :=
  envInv_output m hm e (envReachable_inv m hm e h)

/-- Witness for the amended claim C5: the freshly constructed envelope at
sample rate 100 · 1. -/
theorem claim_C5_wit :
    0 < 1 ∧
    (0 ≤ ((Envelope.new ((100 : ℚ) * (1 : ℕ))).process).1 ∧
     ((Envelope.new ((100 : ℚ) * (1 : ℕ))).process).1 ≤ 1) :=
  ⟨Nat.one_pos, claim_C5_thm 1 Nat.one_pos _ EnvReachable.base⟩
